import Mathlib

/-!
Shallow embedding of `src/patch_extraction/extract_patches_split.py` (repository
`WSI-analysis`), a whole-slide-image patch-extraction pipeline, together with
theorems settling the specification claims about it.

Conventions of the embedding:
* numpy uint8 pixel values are `Nat` (all operations used stay within 0..255);
* an image array of shape `(HEIGHT, WIDTH, 3)` is an `Img`: its two spatial
  dimensions plus a pixel function (numpy arrays are rectangular, the channel
  dimension is fixed at 3 and carried by the `Px` record);
* numpy slicing `a[y:y+P, x:x+P]` clips at array bounds, hence `sliceImg`
  takes `min` with the remaining extent;
* Python floats only occur in exact-by-construction comparisons
  (`cnt >= 0.5 * P * P` over integers, division by `mag_factor = 2 ** level`),
  which are embedded as the equivalent exact integer / rational operations;
* fallible Python code (uncaught exceptions) is embedded with `Except`.
-/

/-- Module constant `PATCH_SIZE = 500`. -/
def PATCH_SIZE : Nat := 500

/-- Module constant `SPLIT = 4`: the WSI level is processed as a `SPLIT x SPLIT`
grid of sections. -/
def SPLIT : Nat := 4

/-- Module constant `PIXEL_WHITE = 255`. -/
def PIXEL_WHITE : Nat := 255

/-- One RGB pixel (the alpha channel is dropped by `construct_colored_wsi`
before any code modelled here runs). -/
structure Px where
  r : Nat
  g : Nat
  b : Nat

/-- A `(HEIGHT, WIDTH, 3)` numpy array: spatial dimensions plus pixel function. -/
structure Img where
  h : Nat
  w : Nat
  px : Nat → Nat → Px

/-- numpy slice `img[y : y + P, x : x + P, :]` (and `mask[y : y + P, x : x + P]`,
whose elided trailing index keeps all 3 channels).  numpy slicing clips at the
array bounds instead of failing, which the `min` captures. -/
def sliceImg (img : Img) (y x P : Nat) : Img :=
  ⟨min P (img.h - y), min P (img.w - x), fun i j => img.px (y + i) (x + j)⟩

/-- Per-channel bitwise AND of two pixels, as in `cv2.bitwise_and`. -/
def pxAnd (p q : Px) : Px :=
  ⟨Nat.land p.r q.r, Nat.land p.g q.g, Nat.land p.b q.b⟩

/-- OpenCV `cv2.bitwise_and` of two equally-shaped arrays (the code only reaches it on
two slices taken with identical indices from two arrays of identical spatial
shape, so the shapes always agree; mismatched calls raise in Python and the
caller catches, see `processCandidate`). -/
def andImg (a b : Img) : Img :=
  ⟨a.h, a.w, fun i j => pxAnd (a.px i j) (b.px i j)⟩

/-- OpenCV `cv2.cvtColor(_, cv2.COLOR_RGB2GRAY)` per-pixel value: the exact
fixed-point computation `(R*4899 + G*9617 + B*1868 + 2^13) >> 14` OpenCV uses
for 8-bit input. -/
def grayOf (p : Px) : Nat :=
  (4899 * p.r + 9617 * p.g + 1868 * p.b + 8192) / 16384

/-- OpenCV `cv2.countNonZero(cv2.cvtColor(img, cv2.COLOR_RGB2GRAY))`: the number of
pixels whose grayscale conversion is nonzero. -/
def whiteCnt (img : Img) : Nat :=
  ((List.range img.h).map
    (fun i => (List.range img.w).countP (fun j => grayOf (img.px i j) != 0))).sum

/-- numpy `np.arange(start, stop, step)` on naturals (for a positive step, as in the
code where the step is `PATCH_SIZE // 2 = 250`; numpy raises on step 0, which
never occurs, so that case is mapped to the empty list). -/
def arange (start stop step : Nat) : List Nat :=
  if step = 0 then []
  else (List.range ((stop - start + step - 1) / step)).map (fun k => start + k * step)

/-- OpenCV `cv2.boundingRect` of a point list: `(x, y, w, h)` with `x, y` the
coordinate minima and `w, h` the maxima minus minima plus one. -/
def boundingRect (c : List (Nat × Nat)) : Nat × Nat × Nat × Nat :=
  match c with
  | [] => (0, 0, 0, 0)
  | p :: ps =>
    let xs := (p :: ps).map Prod.fst
    let ys := (p :: ps).map Prod.snd
    let x0 := xs.foldl min p.1
    let y0 := ys.foldl min p.2
    let x1 := xs.foldl max p.1
    let y1 := ys.foldl max p.2
    (x0, y0, x1 - x0 + 1, y1 - y0 + 1)

/-- Candidate top-left corners of `construct_bags` for one bounding box:
`X = np.arange(b_x_start, b_x_end, PATCH_SIZE // 2)`, likewise `Y`, then the
nested loops `for y_height_ in Y: for x_width_ in X:` enumerate `X x Y`. -/
def candidatesOfBox (bx b_y bw bh P : Nat) : List (Nat × Nat) :=
  (arange b_y (b_y + bh) (P / 2)).flatMap
    (fun y => (arange bx (bx + bw) (P / 2)).map (fun x => (x, y)))

/-- Candidate corners of one contour: `box_ = cv2.boundingRect(np.squeeze(box_))`
followed by the grid enumeration over that box. -/
def candidatesOfContour (c : List (Nat × Nat)) (P : Nat) : List (Nat × Nat) :=
  match boundingRect c with
  | (bx, b_y, bw, bh) => candidatesOfBox bx b_y bw bh P

/-- The body of the innermost loop of `construct_bags` at candidate corner
`(x, y)`: slice the RGB patch and the aligned mask patch, `cv2.bitwise_and`
them (the `try/except` catches the shape-mismatch error the call raises,
turning it into a silent skip), convert to gray, count nonzero pixels, and
accept iff `white_pixel_cnt >= 0.5 * PATCH_SIZE ** 2` (for integers this float
comparison is exactly `P * P <= 2 * cnt`) and
`patch_arr.shape == (PATCH_SIZE, PATCH_SIZE, CHANNEL)`.  Returns the accepted
local coordinate, `none` when the candidate is skipped. -/
def processCandidate (wsi_rgb mask : Img) (P x y : Nat) : Option (Nat × Nat) :=
  let patch_arr := sliceImg wsi_rgb y x P
  let patch_mask_arr := sliceImg mask y x P
  if patch_arr.h = patch_mask_arr.h ∧ patch_arr.w = patch_mask_arr.w then
    if P * P ≤ 2 * whiteCnt (andImg patch_arr patch_mask_arr) then
      if patch_arr.h = P ∧ patch_arr.w = P then some (x, y) else none
    else none
  else none

/-- Twice the polygon area of a contour, by the shoelace formula: the absolute
value of the cyclic sum of cross products.  `cv2.contourArea` (the sort key in
`construct_bags`) returns half this value. -/
def crossZ (p q : Int × Int) : Int := p.1 * q.2 - q.1 * p.2

/-- Cyclic cross-product sum helper: `shoelaceSum p0 l` adds `crossZ` of each
adjacent pair of `l` and closes the cycle from the last element back to `p0`. -/
def shoelaceSum (p0 : Int × Int) : List (Int × Int) → Int
  | [] => 0
  | [p] => crossZ p p0
  | p :: q :: rest => crossZ p q + shoelaceSum p0 (q :: rest)

/-- Twice the OpenCV contour area, `2 * cv2.contourArea c`, as a natural number. -/
def contourArea2 (c : List (Nat × Nat)) : Nat :=
  match c.map (fun p => ((p.1 : Int), (p.2 : Int))) with
  | [] => 0
  | p0 :: rest => (shoelaceSum p0 (p0 :: rest)).natAbs

/-- The value `cv2.contourArea c` itself (a half-integer). -/
def contourAreaQ (c : List (Nat × Nat)) : ℚ :=
  (contourArea2 c : ℚ) / 2

/-- The ordering used by `sorted(contours, key=cv2.contourArea, reverse=True)`:
`a` precedes `b` when the area of `b` does not exceed the area of `a`.  Comparing the doubled
integer areas is equivalent to comparing `cv2.contourArea` values. -/
def contourGE (a b : List (Nat × Nat)) : Prop :=
  contourArea2 b ≤ contourArea2 a

instance : DecidableRel contourGE := fun _ _ => Nat.decLe _ _

instance : IsTotal (List (Nat × Nat)) contourGE :=
  ⟨fun a b => Or.symm (Nat.le_total (contourArea2 a) (contourArea2 b))⟩

instance : IsTrans (List (Nat × Nat)) contourGE :=
  ⟨fun _ _ _ hab hbc => Nat.le_trans hbc hab⟩

/-- Embedding of `sorted(contours, key=cv2.contourArea, reverse=True)`: the Python sort is
stable, and a stable descending sort by area is exactly insertion sort with
`contourGE` (on an area tie the earlier element stays first). -/
def sortContours (cs : List (List (Nat × Nat))) : List (List (Nat × Nat)) :=
  List.insertionSort contourGE cs

/-- The three lists `construct_bags` returns. -/
structure BagsOut where
  patches : List Img
  patches_coords : List (Nat × Nat)
  patches_coords_local : List (Nat × Nat)

/-- Embedding of `construct_bags(wsi_obj, wsi_rgb, contours, mask, level, mag_factor,
PATCH_SIZE, sect)`.  `W, H = wsi_obj.level_dimensions[level]`; the section
string `sect` has its column digit first and row digit second, giving
`delta_x = int(sect[0]) * (W // SPLIT)` and `delta_y = int(sect[1]) * (H // SPLIT)`.
The contours are sorted by `cv2.contourArea` descending, the first 5 are kept,
their bounding-box grids are enumerated, and each accepted candidate appends
its patch slice, its global coordinate `(x + delta_x, y + delta_y)` and its
local coordinate `(x, y)`. -/
def construct_bags (W H : Nat) (wsi_rgb mask : Img)
    (contours : List (List (Nat × Nat))) (P col row : Nat) : BagsOut :=
  let width_split := W / SPLIT
  let height_split := H / SPLIT
  let delta_x := col * width_split
  let delta_y := row * height_split
  let contours5 := (sortContours contours).take 5
  let accepted := (contours5.flatMap (fun c => candidatesOfContour c P)).filterMap
      (fun xy => processCandidate wsi_rgb mask P xy.1 xy.2)
  ⟨accepted.map (fun xy => sliceImg wsi_rgb xy.2 xy.1 P),
   accepted.map (fun xy => (xy.1 + delta_x, xy.2 + delta_y)),
   accepted⟩

/-- The three lists `parse_annotation` returns.  A shapely `Polygon` built from
a coordinate group is modelled by its coordinate ring. -/
structure AnnoOut where
  polygon_list : List (List (Nat × Nat))
  anno_list : List (List (Nat × Nat))
  anno_local_list : List (List (Int × Int))

/-- Level-0 to working-level conversion of one annotation coordinate:
`x = int(float(attrib)); x /= mag_factor; x = int(x)`.  For a nonnegative
integer coordinate and `mag_factor = 2 ** level` the float division is exact
and the final truncation is natural-number division. -/
def convertPt (mag : Nat) (p : Nat × Nat) : Nat × Nat :=
  (p.1 / mag, p.2 / mag)

/-- One local coordinate component: `local = global - delta`, with a negative
result replaced by the sentinel `-1` (each component independently). -/
def sentinelSub (g delta : Nat) : Int :=
  if (g : Int) - (delta : Int) < 0 then -1 else (g : Int) - (delta : Int)

/-- Embedding of `parse_annotation(anno_path, wsi_obj, sect, level, mag_factor)` on the
coordinate groups of the XML (one group per `Coordinates` element, one pair
per `X`/`Y` attribute pair; the claims quantify over nonnegative attribute
values, so coordinates are naturals).  Every group contributes its converted
global list and its sentinel-localized list; only groups with more than 2
points contribute a polygon. -/
def parse_annotation (groups : List (List (Nat × Nat))) (W H mag col row : Nat) :
    AnnoOut :=
  let delta_x := col * (W / SPLIT)
  let delta_y := row * (H / SPLIT)
  let conv := fun (g : List (Nat × Nat)) => g.map (convertPt mag)
  ⟨(groups.map conv).filter (fun g => 2 < g.length),
   groups.map conv,
   groups.map (fun g =>
     (conv g).map (fun p => (sentinelSub p.1 delta_x, sentinelSub p.2 delta_y)))⟩

/-- Python `dict` lookup `d[k]` on an association list: `some` value when the
key is present, `none` standing for the raised `KeyError`. -/
def dictLookup (d : List ((Nat × Nat) × Nat)) (k : Nat × Nat) : Option Nat :=
  match d with
  | [] => none
  | (k2, v) :: rest => if k = k2 then some v else dictLookup rest k

/-- The per-coordinate rows of the CSV `save_to_disk` writes when a tumor
dictionary is given: the list comprehension `[tumor_dict[coord] for coord in
patches_coords]` evaluates left to right and raises `KeyError` at the first
absent coordinate; a present coordinate contributes
`(coord, tumor_area, tumor_area / (PATCH_SIZE * PATCH_SIZE))` (the float
quotient is modelled as the exact rational). -/
def saveRows : List (Nat × Nat) → List ((Nat × Nat) × Nat) →
    Except Unit (List ((Nat × Nat) × Nat × ℚ))
  | [], _ => Except.ok []
  | c :: rest, d =>
    match dictLookup d c with
    | none => Except.error ()
    | some v =>
      match saveRows rest d with
      | Except.error e => Except.error e
      | Except.ok tl =>
        Except.ok ((c, v, (v : ℚ) / ((PATCH_SIZE * PATCH_SIZE : Nat) : ℚ)) :: tl)

/-- The coordinate records `save_to_disk` writes: with `tumor_dict == None`
both tumor columns are zero for every patch; otherwise every coordinate is
looked up in the dictionary (raising `KeyError`, i.e. `Except.error`, on the
first absent one). -/
def save_to_disk_rows (patches_coords : List (Nat × Nat))
    (tumor_dict : Option (List ((Nat × Nat) × Nat))) :
    Except Unit (List ((Nat × Nat) × Nat × ℚ)) :=
  match tumor_dict with
  | none => Except.ok (patches_coords.map (fun c => (c, 0, 0)))
  | some d => saveRows patches_coords d

/-- An opened slide (only its chosen-level dimensions matter to the claims). -/
structure Slide where
  w : Nat
  h : Nat

/-- The Python exceptions relevant to the pipeline entry point. -/
inductive PyErr where
  | unsupportedFormat
  | attributeErr
  | nameErr
deriving DecidableEq

/-- Embedding of `openSlide_init(tif_file_path, level)`: `OpenSlide(tif_file_path)` either
yields a slide or raises `OpenSlideUnsupportedFormatError`; the function
catches that exception, prints a message and returns `None`, and returns the
slide object otherwise. -/
def openSlide_init (openAttempt : Except Unit Slide) : Option Slide :=
  match openAttempt with
  | Except.error _ => none
  | Except.ok s => some s

/-- The `section_list` of `extract_all` as (column, row) digit pairs: the section
string has its column digit first. -/
def section_list : List (Nat × Nat) :=
  [(0, 0), (0, 1), (0, 2), (0, 3),
   (1, 0), (1, 1), (1, 2), (1, 3),
   (2, 0), (2, 1), (2, 2), (2, 3),
   (3, 0), (3, 1), (3, 2), (3, 3)]

/-- What one section iteration of the `extract_all` loop produces (the loaded
region, segmentation and sampling internals are abstracted behind this record:
claims C9 and C10 are decided before the loop body ever runs, and the
image-library primitives of the body are external collaborators). -/
structure SectionResult where
  patches : List Img
  patches_coords : List (Nat × Nat)
  mask : Img

/-- Embedding of `extract_all(slide_path, level, mag_factor, pnflag)`.  The slide is opened
with `openSlide_init` (swallowing `OpenSlideUnsupportedFormatError` into
`None`).  With `pnflag` set, the very next statement evaluates
`anno_path + anno_sample` and `sect`, none of which is bound at that point, so
the call raises a NameError before any section is processed (and the later
`calc_tumorArea` call is likewise undefined in the module).  With `pnflag`
unset and a `None` slide object, the first `read_wsi` call evaluates
`None.level_dimensions` and raises an AttributeError.  Otherwise every section
is processed; sections with a nonempty patch list are saved (first component:
the written coordinate lists) and accumulated into `patches_all` (second
component). -/
def extract_all (openAttempt : Except Unit Slide) (pnflag : Bool)
    (processSection : Slide → Nat × Nat → SectionResult) :
    List (List (Nat × Nat)) × Except PyErr (List (List Img)) :=
  let wsi_obj := openSlide_init openAttempt
  if pnflag then
    ([], Except.error PyErr.nameErr)
  else
    match wsi_obj with
    | none => ([], Except.error PyErr.attributeErr)
    | some s =>
      let outs := section_list.map (fun sect => processSection s sect)
      let nonempty := outs.filter (fun o => !o.patches.isEmpty)
      (nonempty.map (fun o => o.patches_coords),
       Except.ok (nonempty.map (fun o => o.patches)))

/-- A concrete all-white 4 by 4 image used to instantiate theorems. -/
def white4 : Img :=
  ⟨4, 4, fun _ _ => ⟨PIXEL_WHITE, PIXEL_WHITE, PIXEL_WHITE⟩⟩

/-- A concrete all-white 2 by 2 image used to instantiate theorems. -/
def white2 : Img :=
  ⟨2, 2, fun _ _ => ⟨PIXEL_WHITE, PIXEL_WHITE, PIXEL_WHITE⟩⟩

/-- A trivial section result used to instantiate `extract_all`. -/
def trivialSectionResult : SectionResult :=
  ⟨[], [], ⟨0, 0, fun _ _ => ⟨0, 0, 0⟩⟩⟩

/-- Six concrete square contours of strictly decreasing area, used to
instantiate the top-5 selection. -/
def sixContours : List (List (Nat × Nat)) :=
  [[(0, 0), (3, 0), (3, 3), (0, 3)],
   [(0, 0), (2, 0), (2, 3), (0, 3)],
   [(0, 0), (2, 0), (2, 2), (0, 2)],
   [(1, 1), (2, 1), (2, 3), (1, 3)],
   [(0, 0), (1, 0), (1, 1), (0, 1)],
   [(2, 2), (3, 2), (3, 3), (2, 3)]]

/-! Helper lemmas. -/

/-- Membership in `np.arange(start, stop, step)` for a positive step: exactly
the values `start + k * step` below `stop`. -/
theorem mem_arange {x s e st : Nat} (hst : 0 < st) :
    x ∈ arange s e st ↔ (∃ k, x = s + k * st) ∧ x < e := by
  unfold arange
  rw [if_neg (Nat.pos_iff_ne_zero.mp hst)]
  simp only [List.mem_map, List.mem_range]
  constructor
  · rintro ⟨k, hk, rfl⟩
    have h2 : (k + 1) * st ≤ e - s + st - 1 := (Nat.le_div_iff_mul_le hst).mp hk
    have h3 : (k + 1) * st = k * st + st := by ring
    rw [h3] at h2
    refine ⟨⟨k, rfl⟩, ?_⟩
    omega
  · rintro ⟨⟨k, rfl⟩, hlt⟩
    refine ⟨k, ?_, rfl⟩
    rw [Nat.lt_iff_add_one_le]
    apply (Nat.le_div_iff_mul_le hst).mpr
    have h3 : (k + 1) * st = k * st + st := by ring
    rw [h3]
    omega

/-- Membership in the candidate-corner grid of one bounding box. -/
theorem mem_candidatesOfBox {bx b_y bw bh P x y : Nat} (hst : 0 < P / 2) :
    (x, y) ∈ candidatesOfBox bx b_y bw bh P ↔
      (((∃ k, x = bx + k * (P / 2)) ∧ x < bx + bw) ∧
       ((∃ k, y = b_y + k * (P / 2)) ∧ y < b_y + bh)) := by
  unfold candidatesOfBox
  simp only [List.mem_flatMap, List.mem_map]
  constructor
  · rintro ⟨y0, hy0, x0, hx0, heq⟩
    rw [Prod.mk.injEq] at heq
    obtain ⟨rfl, rfl⟩ := heq
    exact ⟨(mem_arange hst).mp hx0, (mem_arange hst).mp hy0⟩
  · rintro ⟨⟨hxk, hxlt⟩, hyk, hylt⟩
    exact ⟨y, (mem_arange hst).mpr ⟨hyk, hylt⟩, x, (mem_arange hst).mpr ⟨hxk, hxlt⟩, rfl⟩

/-- When the candidate loop body accepts, it returns the coordinates of the candidate
itself, and the acceptance conditions held. -/
theorem processCandidate_some (wsi_rgb mask : Img) (P x y : Nat) {z : Nat × Nat}
    (h : processCandidate wsi_rgb mask P x y = some z) :
    z = (x, y) ∧ (sliceImg wsi_rgb y x P).h = P ∧ (sliceImg wsi_rgb y x P).w = P ∧
      P * P ≤ 2 * whiteCnt (andImg (sliceImg wsi_rgb y x P) (sliceImg mask y x P)) := by
  simp only [processCandidate] at h
  by_cases h1 : (sliceImg wsi_rgb y x P).h = (sliceImg mask y x P).h ∧
      (sliceImg wsi_rgb y x P).w = (sliceImg mask y x P).w
  · rw [if_pos h1] at h
    by_cases h2 : P * P ≤ 2 * whiteCnt (andImg (sliceImg wsi_rgb y x P) (sliceImg mask y x P))
    · rw [if_pos h2] at h
      by_cases h3 : (sliceImg wsi_rgb y x P).h = P ∧ (sliceImg wsi_rgb y x P).w = P
      · rw [if_pos h3] at h
        injection h with h4
        exact ⟨h4.symm, h3.1, h3.2, h2⟩
      · rw [if_neg h3] at h
        exact Option.noConfusion h
    · rw [if_neg h2] at h
      exact Option.noConfusion h
  · rw [if_neg h1] at h
    exact Option.noConfusion h

/-- Mapping the coordinate conversion over the groups does not change which
groups pass the more-than-2-points filter. -/
theorem filter_length_map_conv (mag : Nat) (gs : List (List (Nat × Nat))) :
    ((gs.map (fun g => g.map (convertPt mag))).filter (fun g => 2 < g.length)).length =
      (gs.filter (fun g => 2 < g.length)).length := by
  induction gs with
  | nil => rfl
  | cons g rest ih =>
    simp only [List.map_cons, List.filter_cons, List.length_map]
    by_cases h : 2 < g.length
    · simp [h, ih]
    · simp [h, ih]

/-- Rows for a coordinate list all of whose coordinates are present in the
tumor dictionary. -/
theorem saveRows_all_found (d : List ((Nat × Nat) × Nat)) :
    ∀ coords : List (Nat × Nat), (∀ c ∈ coords, (dictLookup d c).isSome) →
      saveRows coords d = Except.ok (coords.map (fun c =>
        (c, (dictLookup d c).getD 0,
          (((dictLookup d c).getD 0 : Nat) : ℚ) / ((PATCH_SIZE * PATCH_SIZE : Nat) : ℚ)))) := by
  intro coords
  induction coords with
  | nil => intro _; rfl
  | cons c rest ih =>
    intro hall
    have hc := hall c (List.mem_cons_self c rest)
    obtain ⟨v, hv⟩ := Option.isSome_iff_exists.mp hc
    have ih2 := ih (fun a ha => hall a (List.mem_cons_of_mem c ha))
    simp [saveRows, hv, ih2]

/-- Rows for a coordinate list containing a coordinate absent from the tumor
dictionary: the lookup raises. -/
theorem saveRows_missing (d : List ((Nat × Nat) × Nat)) :
    ∀ (coords : List (Nat × Nat)) (c : Nat × Nat), c ∈ coords → dictLookup d c = none →
      saveRows coords d = Except.error () := by
  intro coords
  induction coords with
  | nil => intro c hc; cases hc
  | cons a rest ih =>
    intro c hc hnone
    rcases List.mem_cons.mp hc with rfl | hmem
    · simp [saveRows, hnone]
    · cases ha : dictLookup d a with
      | none => simp [saveRows, ha]
      | some v => simp [saveRows, ha, ih c hmem hnone]

/-! Claim theorems. -/

/-- C1: for every accepted patch of `construct_bags`, the recorded global
coordinate equals the recorded local coordinate plus the section offset
`(col * (W // SPLIT), row * (H // SPLIT))`, where `(W, H)` are the chosen-level
dimensions and `SPLIT` the grid size; the two coordinate lists are index-aligned
(equal length, global list is the offset-shifted local list). -/
theorem construct_bags_global_eq_local_add_offset (W H : Nat) (wsi_rgb mask : Img)
    (contours : List (List (Nat × Nat))) (P col row : Nat) :
    (construct_bags W H wsi_rgb mask contours P col row).patches_coords =
      (construct_bags W H wsi_rgb mask contours P col row).patches_coords_local.map
        (fun xy => (xy.1 + col * (W / SPLIT), xy.2 + row * (H / SPLIT))) ∧
    (construct_bags W H wsi_rgb mask contours P col row).patches_coords.length =
      (construct_bags W H wsi_rgb mask contours P col row).patches_coords_local.length := by
  constructor
  · rfl
  · simp [construct_bags]

/-- Instantiation of the C1 theorem on a concrete run that accepts four
patches (section offset `(1 * 8/4, 2 * 8/4) = (2, 4)`). -/
theorem construct_bags_global_eq_local_add_offset_inst :
    (construct_bags 8 8 white4 white4 [[(0, 0), (1, 0), (1, 1), (0, 1)]] 2 1 2).patches_coords =
      (construct_bags 8 8 white4 white4
          [[(0, 0), (1, 0), (1, 1), (0, 1)]] 2 1 2).patches_coords_local.map
        (fun xy => (xy.1 + 1 * (8 / SPLIT), xy.2 + 2 * (8 / SPLIT))) ∧
    (construct_bags 8 8 white4 white4 [[(0, 0), (1, 0), (1, 1), (0, 1)]] 2 1 2).patches_coords.length =
      (construct_bags 8 8 white4 white4
          [[(0, 0), (1, 0), (1, 1), (0, 1)]] 2 1 2).patches_coords_local.length :=
  construct_bags_global_eq_local_add_offset 8 8 white4 white4
    [[(0, 0), (1, 0), (1, 1), (0, 1)]] 2 1 2

/-- C7: for a kept region with bounding box `(bx, b_y, bw, bh)` the candidate
top-left corners are exactly the grid points with step `P // 2` over
`x` in `[bx, bx + bw)` and `y` in `[b_y, b_y + bh)`; in particular box
`(100, 100, 300, 300)` with `P = 100` yields corner values
`{100, 150, 200, 250, 300, 350}` on each axis. -/
theorem candidate_grid_characterization (bx b_y bw bh P : Nat) (hP : 2 ≤ P) :
    (∀ x y : Nat, (x, y) ∈ candidatesOfBox bx b_y bw bh P ↔
        (((∃ k, x = bx + k * (P / 2)) ∧ x < bx + bw) ∧
         ((∃ k, y = b_y + k * (P / 2)) ∧ y < b_y + bh))) ∧
    arange 100 (100 + 300) (100 / 2) = [100, 150, 200, 250, 300, 350] := by
  have hst : 0 < P / 2 := by omega
  exact ⟨fun x y => mem_candidatesOfBox hst, by decide⟩

/-- Instantiation of the C7 theorem: `(150, 200)` is a produced candidate
corner of box `(100, 100, 300, 300)` at `P = 100`, and the concrete `arange`
enumeration. -/
theorem candidate_grid_characterization_inst :
    (150, 200) ∈ candidatesOfBox 100 100 300 300 100 ∧
    arange 100 (100 + 300) (100 / 2) = [100, 150, 200, 250, 300, 350] :=
  ⟨((candidate_grid_characterization 100 100 300 300 100 (by decide)).1 150 200).mpr
      ⟨⟨⟨1, by decide⟩, by decide⟩, ⟨2, by decide⟩, by decide⟩,
   (candidate_grid_characterization 100 100 300 300 100 (by decide)).2⟩

/-- C4: `parse_annotation` converts every (nonnegative) level-0 coordinate by
integer division by the scale factor, and localizes it as global minus the
section offset with each negative component independently replaced by the
sentinel `-1`; in particular `(X, Y) = (800, 800)` at scale factor 2 with
section offset `(500, 0)` yields local coordinate `(-1, 400)`. -/
theorem parse_coords_div_and_sentinel (groups : List (List (Nat × Nat)))
    (W H mag col row : Nat) :
    ( parse_annotation groups W H mag col row).anno_list =
      groups.map (fun g => g.map (fun p => (p.1 / mag, p.2 / mag))) ∧
    ( parse_annotation groups W H mag col row).anno_local_list =
      groups.map (fun g => g.map (fun p =>
        (if ((p.1 / mag : Nat) : Int) - ((col * (W / SPLIT) : Nat) : Int) < 0 then (-1 : Int)
           else ((p.1 / mag : Nat) : Int) - ((col * (W / SPLIT) : Nat) : Int),
         if ((p.2 / mag : Nat) : Int) - ((row * (H / SPLIT) : Nat) : Int) < 0 then (-1 : Int)
           else ((p.2 / mag : Nat) : Int) - ((row * (H / SPLIT) : Nat) : Int)))) ∧
    ( parse_annotation [[(800, 800)]] 2000 2000 2 1 0).anno_local_list = [[(-1, 400)]] := by
  refine ⟨rfl, ?_, by decide⟩
  simp only [ parse_annotation, sentinelSub, convertPt, List.map_map, Function.comp_def]

/-- Instantiation of the C4 theorem at the worked example of the spec. -/
theorem parse_coords_div_and_sentinel_inst :
    ( parse_annotation [[(800, 800)]] 2000 2000 2 1 0).anno_list = [[(400, 400)]] ∧
    ( parse_annotation [[(800, 800)]] 2000 2000 2 1 0).anno_local_list = [[(-1, 400)]] :=
  ⟨(parse_coords_div_and_sentinel [[(800, 800)]] 2000 2000 2 1 0).1,
   (parse_coords_div_and_sentinel [[(800, 800)]] 2000 2000 2 1 0).2.2⟩

/-- C8: `parse_annotation` records a global and a local coordinate list for
every coordinate group regardless of its size (outputs are index-aligned with
the source groups), but a polygon is built for a group if and only if the group
has more than 2 points. -/
theorem parse_groups_alignment_and_polygon_condition (groups : List (List (Nat × Nat)))
    (W H mag col row : Nat) :
    ( parse_annotation groups W H mag col row).anno_list.length = groups.length ∧
    ( parse_annotation groups W H mag col row).anno_local_list.length = groups.length ∧
    ( parse_annotation groups W H mag col row).polygon_list =
      (groups.map (fun g => g.map (convertPt mag))).filter (fun g => 2 < g.length) ∧
    ( parse_annotation groups W H mag col row).polygon_list.length =
      (groups.filter (fun g => 2 < g.length)).length := by
  refine ⟨by simp [ parse_annotation], by simp [ parse_annotation], rfl, ?_⟩
  exact filter_length_map_conv mag groups

/-- Instantiation of the C8 theorem: one 2-point group and one 4-point group
give two coordinate-list entries but a single polygon. -/
theorem parse_groups_alignment_and_polygon_condition_inst :
    ( parse_annotation [[(0, 0), (8, 0)], [(0, 0), (8, 0), (8, 8), (0, 8)]]
        2000 2000 2 0 0).anno_list.length = 2 ∧
    ( parse_annotation [[(0, 0), (8, 0)], [(0, 0), (8, 0), (8, 8), (0, 8)]]
        2000 2000 2 0 0).polygon_list.length = 1 := by
  refine ⟨(parse_groups_alignment_and_polygon_condition
      [[(0, 0), (8, 0)], [(0, 0), (8, 0), (8, 8), (0, 8)]] 2000 2000 2 0 0).1, ?_⟩
  rw [(parse_groups_alignment_and_polygon_condition
      [[(0, 0), (8, 0)], [(0, 0), (8, 0), (8, 8), (0, 8)]] 2000 2000 2 0 0).2.2.2]
  decide

/-- C5 counterexample: with a tumor mapping present, a patch coordinate absent
from the mapping is NOT serialized with `tumor_area = 0`; the dictionary lookup
`tumor_dict[coord]` raises `KeyError` (`Except.error`) instead. -/
theorem absent_coord_raises_keyerror :
    save_to_disk_rows [(1, 1)] (some [((0, 0), 5)]) = Except.error () ∧
    (Except.error () : Except Unit (List ((Nat × Nat) × Nat × ℚ))) ≠
      Except.ok [((1, 1), 0, 0)] :=
  ⟨rfl, fun h => Except.noConfusion h⟩

/-- C5 (amended): with no tumor mapping, every patch row has `tumor_area = 0`
and `tumor_%` zero; with a mapping, the `tumor_area` of every row is the value
the mapping holds for that coordinate and `tumor_%` equals `tumor_area / (PATCH_SIZE *
PATCH_SIZE)` when all coordinates are present, while a coordinate absent from
the mapping raises `KeyError` (is not treated as zero overlap). -/
theorem save_rows_lookup_behavior :
    (∀ coords : List (Nat × Nat),
        save_to_disk_rows coords none = Except.ok (coords.map (fun c => (c, 0, 0)))) ∧
    (∀ (coords : List (Nat × Nat)) (d : List ((Nat × Nat) × Nat)),
        (∀ c ∈ coords, (dictLookup d c).isSome) →
        save_to_disk_rows coords (some d) = Except.ok (coords.map (fun c =>
          (c, (dictLookup d c).getD 0,
            (((dictLookup d c).getD 0 : Nat) : ℚ) / ((PATCH_SIZE * PATCH_SIZE : Nat) : ℚ))))) ∧
    (∀ (coords : List (Nat × Nat)) (d : List ((Nat × Nat) × Nat)) (c : Nat × Nat),
        c ∈ coords → dictLookup d c = none →
        save_to_disk_rows coords (some d) = Except.error ()) :=
  ⟨fun _ => rfl, fun coords d h => saveRows_all_found d coords h,
   fun coords d c hc hn => saveRows_missing d coords c hc hn⟩

/-- Instantiation of the C5 amended theorem on concrete inputs: a present
coordinate gets its mapped area and ratio, an absent one raises, no mapping
gives zeros. -/
theorem save_rows_lookup_behavior_inst :
    save_to_disk_rows [(3, 4)] (some [((3, 4), 7)]) =
      Except.ok [((3, 4), 7, (7 : ℚ) / ((PATCH_SIZE * PATCH_SIZE : Nat) : ℚ))] ∧
    save_to_disk_rows [(9, 9)] (some [((3, 4), 7)]) = Except.error () ∧
    save_to_disk_rows [(5, 5)] none = Except.ok [((5, 5), 0, 0)] := by
  refine ⟨?_, ?_, ?_⟩
  · have h := save_rows_lookup_behavior.2.1 [(3, 4)] [((3, 4), 7)] (by decide)
    exact h
  · exact save_rows_lookup_behavior.2.2 [(9, 9)] [((3, 4), 7)] (9, 9) (by decide) (by decide)
  · exact save_rows_lookup_behavior.1 [(5, 5)]

/-- C9 counterexample: when the slide source cannot be opened, the run does
not fail with `UnsupportedFormatError` — `openSlide_init` catches that
exception and returns `None`, and the run (here with `pnflag = False`) aborts
later with an AttributeError on the `None` handle. -/
theorem unsupported_open_aborts_with_attribute_error :
    extract_all (Except.error ()) false (fun _ _ => trivialSectionResult) =
      ([], Except.error PyErr.attributeErr) ∧
    (Except.error PyErr.attributeErr : Except PyErr (List (List Img))) ≠
      Except.error PyErr.unsupportedFormat := by
  refine ⟨rfl, fun h => ?_⟩
  injection h with h2
  exact PyErr.noConfusion h2

/-- C9 (amended): when the slide source cannot be opened, the
`UnsupportedFormatError` is caught inside `openSlide_init`, which returns
`None`; the run still aborts before any section is processed — with an
unhandled NameError (`pnflag = True`) or AttributeError on the `None` handle
(`pnflag = False`), not with `UnsupportedFormatError` — and nothing is
written. -/
theorem failed_open_aborts_without_unsupported_error (pnflag : Bool)
    (processSection : Slide → Nat × Nat → SectionResult) :
    (extract_all (Except.error ()) pnflag processSection).1 = [] ∧
    ∃ e, (extract_all (Except.error ()) pnflag processSection).2 = Except.error e ∧
      e ≠ PyErr.unsupportedFormat := by
  cases pnflag
  · exact ⟨rfl, PyErr.attributeErr, rfl, by decide⟩
  · exact ⟨rfl, PyErr.nameErr, rfl, by decide⟩

/-- Instantiation of the C9 amended theorem at `pnflag = False` and a trivial
section processor. -/
theorem failed_open_aborts_without_unsupported_error_inst :
    (extract_all (Except.error ()) false (fun _ _ => trivialSectionResult)).1 = [] ∧
    ∃ e, (extract_all (Except.error ()) false (fun _ _ => trivialSectionResult)).2 =
        Except.error e ∧ e ≠ PyErr.unsupportedFormat :=
  failed_open_aborts_without_unsupported_error false (fun _ _ => trivialSectionResult)

/-- C10: every call of `extract_all` with `pnflag` set fails with an
unbound-name error (`anno_path`, `anno_sample` and `sect` are unbound at the
`parse_annotation` call site; the module also never defines `calc_tumorArea`)
before any section is processed, whatever the slide open attempt returned:
nothing is written and no patches are produced. -/
theorem pnflag_true_name_error (openAttempt : Except Unit Slide)
    (processSection : Slide → Nat × Nat → SectionResult) :
    extract_all openAttempt true processSection = ([], Except.error PyErr.nameErr) := rfl

/-- Instantiation of the C10 theorem at a successfully opened slide. -/
theorem pnflag_true_name_error_inst :
    extract_all (Except.ok ⟨2000, 2000⟩) true (fun _ _ => trivialSectionResult) =
      ([], Except.error PyErr.nameErr) :=
  pnflag_true_name_error (Except.ok ⟨2000, 2000⟩) (fun _ _ => trivialSectionResult)

/-- C2: given aligned RGB and mask arrays of equal spatial shape (as produced
by `get_contours`, whose mask has the shape of the RGB image), a candidate window is
accepted as a patch iff the count of nonzero pixels in the single-channel
conversion of the bitwise AND of the RGB block and the aligned mask block is at
least `0.5 * P * P` and the shape of the RGB block is exactly `(P, P, 3)` (the
channel count 3 is carried by `Px`); consequently every patch recorded by
`construct_bags` has shape `(P, P, 3)` and occupancy at least `0.5`. -/
theorem patch_accept_iff_occupancy_and_shape (wsi_rgb mask : Img) (P x y : Nat)
    (hmh : mask.h = wsi_rgb.h) (hmw : mask.w = wsi_rgb.w) (hP : 0 < P) :
    ((processCandidate wsi_rgb mask P x y).isSome ↔
      (((P * P : Nat) : ℚ) / 2 ≤
          (whiteCnt (andImg (sliceImg wsi_rgb y x P) (sliceImg mask y x P)) : ℚ) ∧
        (sliceImg wsi_rgb y x P).h = P ∧ (sliceImg wsi_rgb y x P).w = P)) ∧
    (∀ (W H : Nat) (contours : List (List (Nat × Nat))) (col row : Nat),
      ∀ xy ∈ (construct_bags W H wsi_rgb mask contours P col row).patches_coords_local,
        (sliceImg wsi_rgb xy.2 xy.1 P).h = P ∧ (sliceImg wsi_rgb xy.2 xy.1 P).w = P ∧
        (1 : ℚ) / 2 ≤
          (whiteCnt (andImg (sliceImg wsi_rgb xy.2 xy.1 P) (sliceImg mask xy.2 xy.1 P)) : ℚ) /
            ((P * P : Nat) : ℚ)) := by
  have hdimh : ∀ a b : Nat, (sliceImg wsi_rgb b a P).h = (sliceImg mask b a P).h := by
    intro a b
    simp [sliceImg, hmh]
  have hdimw : ∀ a b : Nat, (sliceImg wsi_rgb b a P).w = (sliceImg mask b a P).w := by
    intro a b
    simp [sliceImg, hmw]
  have hQiff : ∀ cnt : Nat, (((P * P : Nat) : ℚ) / 2 ≤ (cnt : ℚ)) ↔ P * P ≤ 2 * cnt := by
    intro cnt
    have h2 : ((2 * cnt : Nat) : ℚ) = (cnt : ℚ) * 2 := by
      push_cast
      ring
    rw [div_le_iff (by norm_num : (0 : ℚ) < 2), ← h2]
    exact Nat.cast_le
  constructor
  · simp only [processCandidate]
    rw [if_pos ⟨hdimh x y, hdimw x y⟩]
    by_cases h2 : P * P ≤ 2 * whiteCnt (andImg (sliceImg wsi_rgb y x P) (sliceImg mask y x P))
    · rw [if_pos h2]
      by_cases h3 : (sliceImg wsi_rgb y x P).h = P ∧ (sliceImg wsi_rgb y x P).w = P
      · rw [if_pos h3]
        exact iff_of_true (by simp) ⟨(hQiff _).mpr h2, h3⟩
      · rw [if_neg h3]
        exact iff_of_false (by simp) (fun hc => h3 hc.2)
    · rw [if_neg h2]
      exact iff_of_false (by simp) (fun hc => h2 ((hQiff _).mp hc.1))
  · intro W H contours col row xy hxy
    simp only [construct_bags] at hxy
    obtain ⟨a, ha, hpa⟩ := List.mem_filterMap.mp hxy
    obtain ⟨hz, hh, hw, hcnt⟩ := processCandidate_some wsi_rgb mask P a.1 a.2 hpa
    subst hz
    refine ⟨hh, hw, ?_⟩
    have hPP : (0 : ℚ) < ((P * P : Nat) : ℚ) := by
      exact_mod_cast Nat.mul_pos hP hP
    rw [div_le_div_iff (by norm_num : (0 : ℚ) < 2) hPP]
    have hcast : ((P * P : Nat) : ℚ) ≤ ((2 * whiteCnt (andImg (sliceImg wsi_rgb a.2 a.1 P)
        (sliceImg mask a.2 a.1 P)) : Nat) : ℚ) := Nat.cast_le.mpr hcnt
    push_cast at hcast ⊢
    linarith

/-- Instantiation of the C2 theorem on a fully white 2 by 2 image with `P = 2`:
the corner `(0, 0)` is accepted. -/
theorem patch_accept_iff_occupancy_and_shape_inst :
    (processCandidate white2 white2 2 0 0).isSome ∧ (sliceImg white2 0 0 2).h = 2 := by
  have h := patch_accept_iff_occupancy_and_shape white2 white2 2 0 0 rfl rfl (by decide)
  have hc : whiteCnt (andImg (sliceImg white2 0 0 2) (sliceImg white2 0 0 2)) = 4 := by decide
  refine ⟨h.1.mpr ⟨?_, by decide, by decide⟩, by decide⟩
  rw [hc]
  norm_num

/-- C3: a candidate corner whose RGB slice is clipped (does not have the full
`P` by `P` shape) is skipped silently: the (total) candidate step yields no
patch and no error, and `construct_bags` still processes the whole candidate
list of the kept contours — its accepted-patch list is the filter-map of the
candidate step over all candidates, so one clipped candidate never stops the
remaining ones. -/
theorem boundary_clip_skips_candidate (wsi_rgb mask : Img) (P x y : Nat)
    (hclip : ¬((sliceImg wsi_rgb y x P).h = P ∧ (sliceImg wsi_rgb y x P).w = P)) :
    processCandidate wsi_rgb mask P x y = none ∧
    (∀ (W H : Nat) (contours : List (List (Nat × Nat))) (col row : Nat),
      (construct_bags W H wsi_rgb mask contours P col row).patches_coords_local =
        (((sortContours contours).take 5).flatMap (fun c => candidatesOfContour c P)).filterMap
          (fun xy => processCandidate wsi_rgb mask P xy.1 xy.2)) := by
  refine ⟨?_, fun _ _ _ _ _ => rfl⟩
  simp only [processCandidate]
  by_cases h1 : (sliceImg wsi_rgb y x P).h = (sliceImg mask y x P).h ∧
      (sliceImg wsi_rgb y x P).w = (sliceImg mask y x P).w
  · rw [if_pos h1]
    by_cases h2 : P * P ≤ 2 * whiteCnt (andImg (sliceImg wsi_rgb y x P) (sliceImg mask y x P))
    · rw [if_pos h2, if_neg hclip]
    · rw [if_neg h2]
  · rw [if_neg h1]

/-- Instantiation of the C3 theorem: on a 2 by 2 image with `P = 2`, the corner
`(1, 0)` clips (slice width 1) and is skipped. -/
theorem boundary_clip_skips_candidate_inst :
    processCandidate white2 white2 2 1 0 = none :=
  (boundary_clip_skips_candidate white2 white2 2 1 0 (by decide)).1

/-- C6: `construct_bags` samples only from the 5 contours of largest enclosed
area: every recorded patch coordinate arises from a candidate corner of one of
the first 5 contours of the stable descending area sort; at most 5 contours are
kept; the area of every kept contour (`cv2.contourArea`, i.e. `contourAreaQ`) is at
least the area of every dropped contour; and the sort is a permutation of the input
contours, so with more than 5 contours every 6th-or-lower-ranked contour is
dropped and contributes no candidate windows. -/
theorem top_five_contours_only (W H : Nat) (wsi_rgb mask : Img)
    (contours : List (List (Nat × Nat))) (P col row : Nat) :
    (∀ xy ∈ (construct_bags W H wsi_rgb mask contours P col row).patches_coords_local,
        ∃ c ∈ (sortContours contours).take 5, xy ∈ candidatesOfContour c P) ∧
    ((sortContours contours).take 5).length ≤ 5 ∧
    (∀ c ∈ (sortContours contours).take 5, ∀ d ∈ (sortContours contours).drop 5,
        contourAreaQ d ≤ contourAreaQ c) ∧
    (sortContours contours).Perm contours := by
  refine ⟨?_, ?_, ?_, List.perm_insertionSort contourGE contours⟩
  · intro xy hxy
    simp only [construct_bags] at hxy
    obtain ⟨a, ha, hpa⟩ := List.mem_filterMap.mp hxy
    obtain ⟨c, hc, hac⟩ := List.mem_flatMap.mp ha
    obtain ⟨hz, _, _, _⟩ := processCandidate_some wsi_rgb mask P a.1 a.2 hpa
    refine ⟨c, hc, ?_⟩
    rw [hz]
    exact hac
  · rw [List.length_take]
    exact min_le_left 5 _
  · have hs : List.Sorted contourGE (sortContours contours) :=
      List.sorted_insertionSort contourGE contours
    have hp : List.Pairwise contourGE
        ((sortContours contours).take 5 ++ (sortContours contours).drop 5) := by
      rw [List.take_append_drop]
      exact hs
    have hcross := (List.pairwise_append.mp hp).2.2
    intro c hc d hd
    have h1 : contourGE c d := hcross c hc d hd
    unfold contourAreaQ
    have h2 : ((contourArea2 d : ℚ)) ≤ (contourArea2 c : ℚ) := by exact_mod_cast h1
    exact (div_le_div_right (by norm_num : (0 : ℚ) < 2)).mpr h2

/-- Instantiation of the C6 theorem on six concrete contours of decreasing
area. -/
theorem top_five_contours_only_inst :
    ((sortContours sixContours).take 5).length ≤ 5 ∧
    (sortContours sixContours).Perm sixContours :=
  ⟨(top_five_contours_only 8 8 white4 white4 sixContours 2 0 0).2.1,
   (top_five_contours_only 8 8 white4 white4 sixContours 2 0 0).2.2.2⟩
